import Mathlib

/-!
# Verification of the gridsome build orchestrator (`lib/build.js`)

Shallow embedding of the build pipeline in `src/gridsome/lib/build.js`:
the chunking of work queues (lodash `chunk`), the content-hash selection,
the HTML render dispatch, the image-processing stage (directory read,
chunk dispatch loop, progress accounting, worker shutdown, and the
unused-image reconciliation), and the top-level stage sequencing.

External effects (worker RPC results, directory reads) are parameters of
the models: a model takes the outcome of each external call and returns
the resulting trace of observable events together with the stage's result.
-/

namespace Gridsome

/-- Auxiliary for `chunk`, structurally recursive on the list so that the kernel
can evaluate it: `chunkAux n xs i = (xs.take i, chunk (xs.drop i) (n + 1))`. -/
def chunkAux (n : ℕ) : List α → ℕ → List α × List (List α)
  | [], _ => ([], [])
  | x :: xs, 0 =>
    let p := chunkAux n xs n
    ([], (x :: p.1) :: p.2)
  | x :: xs, i + 1 =>
    let p := chunkAux n xs i
    (x :: p.1, p.2)

/-- lodash `chunk(array, size)`: splits `xs` into groups of length `size`;
if `xs` can't be split evenly, the final chunk is the remaining elements.
`chunk(xs, 0)` returns `[]` (lodash clamps `size` at 0 and produces nothing). -/
def chunk (xs : List α) (size : ℕ) : List (List α) :=
  match size with
  | 0 => []
  | n + 1 => (chunkAux n xs 0).2

theorem chunkAux_spec (n : ℕ) :
    ∀ (xs : List α) (i : ℕ), chunkAux n xs i = (xs.take i, chunk (xs.drop i) (n + 1))
  | [], i => by simp [chunkAux, chunk]
  | x :: xs, 0 => by
    simp only [chunkAux, chunkAux_spec n xs n, List.take_zero, List.drop_zero]
    show _ = ([], (chunkAux n (x :: xs) 0).2)
    simp only [chunkAux, chunkAux_spec n xs n]
  | x :: xs, i + 1 => by
    simp only [chunkAux, chunkAux_spec n xs i]
    rfl

theorem chunk_nil (size : ℕ) : chunk ([] : List α) size = [] := by
  cases size <;> simp [chunk, chunkAux]

theorem chunk_zero (xs : List α) : chunk xs 0 = [] := rfl

theorem chunk_of_ne (xs : List α) (size : ℕ) (hs : size ≠ 0) (hx : xs ≠ []) :
    chunk xs size = xs.take size :: chunk (xs.drop size) size := by
  rcases xs with _ | ⟨x, tl⟩
  · exact absurd rfl hx
  · rcases size with _ | n
    · exact absurd rfl hs
    · show (chunkAux n (x :: tl) 0).2 = _
      simp only [chunkAux, chunkAux_spec n tl n]
      simp [List.take_succ_cons, List.drop_succ_cons]

/-- Concatenating the chunks in order reproduces the original list. -/
theorem chunk_flatten (xs : List α) (size : ℕ) (hs : size ≠ 0) :
    (chunk xs size).flatten = xs := by
  by_cases hx : xs = []
  · subst hx; simp [chunk_nil]
  · rw [chunk_of_ne xs size hs hx]
    have ih := chunk_flatten (xs.drop size) size hs
    simp [ih]
termination_by xs.length
decreasing_by
  rcases xs with _ | ⟨a, tl⟩
  · simp_all
  · simp [List.length_drop]; omega

/-- The number of chunks is `⌈L / size⌉`, computed as `(L + size - 1) / size`. -/
theorem chunk_length (xs : List α) (size : ℕ) (hs : size ≠ 0) :
    (chunk xs size).length = (xs.length + size - 1) / size := by
  by_cases hx : xs = []
  · subst hx
    simp [chunk_nil, Nat.div_eq_of_lt (by omega : size - 1 < size)]
  · rw [chunk_of_ne xs size hs hx]
    have hlen : 1 ≤ xs.length := List.length_pos.mpr hx
    by_cases hle : xs.length ≤ size
    · rw [List.drop_eq_nil_of_le hle, chunk_nil]
      have : (xs.length + size - 1) / size = 1 := by
        apply Nat.div_eq_of_lt_le (by omega) (by omega)
      simp [this]
    · have ih := chunk_length (xs.drop size) size hs
      rw [List.length_cons, ih, List.length_drop]
      have h1 : xs.length - size + size - 1 = xs.length - 1 := by omega
      have h2 : xs.length + size - 1 = (xs.length - 1) + size := by omega
      rw [h1, h2, Nat.add_div_right _ (by omega)]
termination_by xs.length
decreasing_by
  rcases xs with _ | ⟨a, tl⟩
  · simp_all
  · simp [List.length_drop]; omega

/-- Every chunk except possibly the last has exactly `size` elements. -/
theorem chunk_dropLast_length (xs : List α) (size : ℕ) (hs : size ≠ 0) :
    ∀ c ∈ (chunk xs size).dropLast, c.length = size := by
  by_cases hx : xs = []
  · subst hx; simp [chunk_nil]
  · rw [chunk_of_ne xs size hs hx]
    rcases hrest : chunk (xs.drop size) size with _ | ⟨r, rs⟩
    · simp
    · have ih := chunk_dropLast_length (xs.drop size) size hs
      rw [hrest] at ih
      intro c hc
      rw [List.dropLast_cons_of_ne_nil (by simp)] at hc
      rcases List.mem_cons.mp hc with hceq | hcmem
      · subst hceq
        have hgt : size < xs.length := by
          by_contra hle
          push_neg at hle
          rw [List.drop_eq_nil_of_le hle, chunk_nil] at hrest
          exact List.noConfusion hrest
        simp [List.length_take]
        omega
      · exact ih c hcmem
termination_by xs.length
decreasing_by
  rcases xs with _ | ⟨a, tl⟩
  · simp_all
  · simp [List.length_drop]; omega

/-- The final chunk has `L % size` elements when `size` does not divide `L`,
and `size` elements when it does. -/
theorem chunk_getLast?_length (xs : List α) (size : ℕ) (hs : size ≠ 0) (hx : xs ≠ []) :
    ∃ c, (chunk xs size).getLast? = some c ∧
      c.length = if xs.length % size = 0 then size else xs.length % size := by
  rw [chunk_of_ne xs size hs hx]
  have hlen : 1 ≤ xs.length := List.length_pos.mpr hx
  rcases hrest : chunk (xs.drop size) size with _ | ⟨r, rs⟩
  · have hle : xs.length ≤ size := by
      by_contra hgt
      push_neg at hgt
      have hne : xs.drop size ≠ [] := by
        intro hnil
        have := congrArg List.length hnil
        simp [List.length_drop] at this
        omega
      rw [chunk_of_ne (xs.drop size) size hs hne] at hrest
      exact List.noConfusion hrest
    refine ⟨xs.take size, by simp, ?_⟩
    rcases Nat.lt_or_ge xs.length size with hlt | hge
    · rw [Nat.mod_eq_of_lt hlt]
      have h0 : ¬ xs.length = 0 := by omega
      simp [h0, List.length_take]
      omega
    · have heq : xs.length = size := le_antisymm hle hge
      simp [heq, Nat.mod_self, List.length_take]
  · have hne : xs.drop size ≠ [] := by
      intro hnil
      rw [hnil, chunk_nil] at hrest
      exact List.noConfusion hrest
    have hgt : size < xs.length := by
      by_contra hle
      push_neg at hle
      exact hne (List.drop_eq_nil_of_le hle)
    obtain ⟨c, hc, hclen⟩ := chunk_getLast?_length (xs.drop size) size hs hne
    refine ⟨c, ?_, ?_⟩
    · rw [hrest] at hc
      rw [List.getLast?_cons_cons]
      exact hc
    · rw [hclen, List.length_drop]
      rw [Nat.mod_eq_sub_mod (by omega : size ≤ xs.length)]
termination_by xs.length
decreasing_by
  rcases xs with _ | ⟨a, tl⟩
  · simp_all
  · simp [List.length_drop]; omega

/-! ## Unused-image reconciliation (`processImages`, tail of the function) -/

/-- Node `path.basename` for posix paths: trailing separators are ignored and
the component after the last remaining separator is returned. -/
def basename (p : String) : String :=
  let r := p.data.reverse.dropWhile (fun c => c = '/')
  String.mk (r.takeWhile (fun c => c ≠ '/')).reverse

/-- One entry of `images.queue`. The orchestrator inspects only `destPath`
(entries are forwarded verbatim to the image worker). -/
structure ImageJob where
  destPath : String
deriving DecidableEq

/-- Source: `const newImages = images.queue.map((c) => path.basename(c.destPath))`. -/
def newImages (queue : List ImageJob) : List String :=
  queue.map (fun c => basename c.destPath)

/-- Source: `const extraImages = existingImages.filter((value) => !newImages.includes(value))`. -/
def extraImages (existingImages : List String) (queue : List ImageJob) : List String :=
  existingImages.filter (fun value => !((newImages queue).contains value))

/-- The filenames removed by the reconciliation at the end of `processImages`:
guarded by `if (config.images.removeUnused && existingImages.length)`, each
member of `extraImages` is removed from the images directory. -/
def removedImages (removeUnused : Bool) (existingImages : List String)
    (queue : List ImageJob) : List String :=
  if removeUnused && existingImages.length != 0 then extraImages existingImages queue
  else []

theorem mem_removedImages (existingImages : List String) (queue : List ImageJob)
    (hne : existingImages ≠ []) (x : String) :
    x ∈ removedImages true existingImages queue ↔
      x ∈ existingImages ∧ x ∉ queue.map (fun j => basename j.destPath) := by
  have hlen : existingImages.length != 0 := by
    simpa using hne
  simp [removedImages, extraImages, newImages, hlen, List.mem_filter]

/-- C1: with `removeUnused` enabled and a non-empty pre-existing set, the
reconciliation deletes exactly the pre-existing filenames that are not among
the basenames of the queue's destination paths; no basename of a queued
`destPath` is ever deleted; and the decision depends only on those basenames,
never on the full destination paths. -/
theorem reconciliation_deletes_exactly_unused (existingImages : List String)
    (queue : List ImageJob) (hne : existingImages ≠ []) :
    (∀ x, x ∈ removedImages true existingImages queue ↔
        x ∈ existingImages ∧ x ∉ queue.map (fun j => basename j.destPath)) ∧
    (∀ j ∈ queue, basename j.destPath ∉ removedImages true existingImages queue) ∧
    (∀ queue' : List ImageJob,
        queue.map (fun j => basename j.destPath) = queue'.map (fun j => basename j.destPath) →
        removedImages true existingImages queue = removedImages true existingImages queue') := by
  refine ⟨mem_removedImages existingImages queue hne, ?_, ?_⟩
  · intro j hj hmem
    rcases (mem_removedImages existingImages queue hne _).mp hmem with ⟨-, hnot⟩
    exact hnot (List.mem_map.mpr ⟨j, hj, rfl⟩)
  · intro queue' hmap
    have : newImages queue = newImages queue' := hmap
    simp [removedImages, extraImages, this]

/-- C1 witness: the spec's own example: `existing = {a.png, b.png, c.png}` and
destination basenames `{a.png, d.png}` remove exactly `{b.png, c.png}`. -/
theorem reconciliation_deletes_exactly_unused_witness :
    "b.png" ∈ removedImages true ["a.png", "b.png", "c.png"]
        [⟨"assets/static/a.png"⟩, ⟨"assets/static/d.png"⟩] ∧
    basename "assets/static/a.png" ∉ removedImages true ["a.png", "b.png", "c.png"]
        [⟨"assets/static/a.png"⟩, ⟨"assets/static/d.png"⟩] := by
  have h := reconciliation_deletes_exactly_unused ["a.png", "b.png", "c.png"]
    [⟨"assets/static/a.png"⟩, ⟨"assets/static/d.png"⟩] (by decide)
  exact ⟨(h.1 "b.png").mpr (by decide), h.2.1 ⟨"assets/static/a.png"⟩ (by decide)⟩

/-! ## Content hash and HTML render dispatch -/

/-- Source: `const hashString = config.cacheBusting ? stats.hash : 'gridsome'`. -/
def hashString (cacheBusting : Bool) (statsHash : String) : String :=
  if cacheBusting then statsHash else "gridsome"

/-- The payload of one `worker.render` call in `renderHTML`: the content hash,
one chunk of pages, and the rendering configuration (`htmlTemplate`,
`clientManifestPath`, `serverBundlePath`, `prefetch`, `preload`), which the
orchestrator forwards verbatim; it is bundled here as one opaque value. -/
structure RenderPayload (π ρ : Type) where
  hash : String
  pages : List π
  renderConfig : ρ
deriving DecidableEq

/-- The `worker.render` calls issued by `renderHTML`: one per chunk of 350
pages, each carrying the same `hash` argument. -/
def renderDispatches {π ρ : Type} (renderQueue : List π) (hash : String) (rc : ρ) :
    List (RenderPayload π ρ) :=
  (chunk renderQueue 350).map (fun pages => ⟨hash, pages, rc⟩)

/-- C3: every HTML render chunk dispatch of a build receives the one hash value
computed up front: the compiler's hash when `cacheBusting` is true, the literal
`"gridsome"` when it is false, regardless of the compiler's actual hash. -/
theorem content_hash_threading {π ρ : Type} (cacheBusting : Bool) (statsHash : String)
    (renderQueue : List π) (rc : ρ) (p : RenderPayload π ρ)
    (hp : p ∈ renderDispatches renderQueue (hashString cacheBusting statsHash) rc) :
    p.hash = hashString cacheBusting statsHash ∧
    (cacheBusting = false → p.hash = "gridsome") ∧
    (cacheBusting = true → p.hash = statsHash) := by
  rcases List.mem_map.mp hp with ⟨pages, -, hpe⟩
  have hhash : p.hash = hashString cacheBusting statsHash := by
    rw [← hpe]
  refine ⟨hhash, ?_, ?_⟩
  · intro hcb; rw [hhash, hcb, hashString, if_neg (by simp)]
  · intro hcb; rw [hhash, hcb, hashString, if_pos rfl]

/-- C3 witness: a one-page queue with cache busting disabled; the dispatched
payload's hash is the literal `"gridsome"` even though the compiler hash is
`"abc123"`. -/
theorem content_hash_threading_witness :
    (⟨"gridsome", [0], ()⟩ : RenderPayload ℕ Unit) ∈
        renderDispatches [0] (hashString false "abc123") () ∧
    (⟨"gridsome", [0], ()⟩ : RenderPayload ℕ Unit).hash = "gridsome" := by
  refine ⟨by decide, ?_⟩
  exact (content_hash_threading false "abc123" [0] () _ (by decide)).2.1 rfl

/-- C2: chunking a queue of length `L` with the HTML stage size 350 or the image
stage size 25 yields `⌈L / size⌉` chunks (here `(L + size - 1) / size`), all of
the fixed size except possibly the last, whose size is `L % size` if that is
non-zero and `size` otherwise; concatenating the chunks in order reproduces the
queue exactly. -/
theorem chunking_spec {α : Type} (size : ℕ) (hsize : size = 350 ∨ size = 25) (xs : List α) :
    (chunk xs size).length = (xs.length + size - 1) / size ∧
    (chunk xs size).flatten = xs ∧
    (∀ c ∈ (chunk xs size).dropLast, c.length = size) ∧
    (xs ≠ [] → ∃ c, (chunk xs size).getLast? = some c ∧
      c.length = if xs.length % size = 0 then size else xs.length % size) := by
  have hs : size ≠ 0 := by rcases hsize with h | h <;> omega
  exact ⟨chunk_length xs size hs, chunk_flatten xs size hs,
    chunk_dropLast_length xs size hs, fun hx => chunk_getLast?_length xs size hs hx⟩

/-- C2 witness: a queue of 30 items at image-stage size 25 splits into 2 chunks
(25 and 5 items) that concatenate back to the queue. -/
theorem chunking_spec_witness :
    (chunk (List.range 30) 25).length = (30 + 25 - 1) / 25 ∧
    (chunk (List.range 30) 25).flatten = List.range 30 ∧
    (chunk (List.range 30) 25).getLast? = some (List.range' 25 5) := by
  have h := chunking_spec 25 (Or.inr rfl) (List.range 30)
  refine ⟨h.1, h.2.1, ?_⟩
  obtain ⟨c, hc, -⟩ := h.2.2.2 (by decide)
  rw [hc]
  have : (chunk (List.range 30) 25).getLast? = some (List.range' 25 5) := by decide
  rw [hc] at this
  exact this

/-- JS `Math.round` applied to the exact rational value of its argument:
`Math.round(x) = ⌊x + 1/2⌋` for `x ≥ 0`. (For the progress percentages computed
here, IEEE double evaluation agrees with the exact rational value.) -/
def mathRound (x : ℚ) : ℤ := ⌊x + 1 / 2⌋

/-- Evaluation lemma: `Math.round((n * 100) / N)` as natural-number division. -/
theorem mathRound_progress (n N : ℕ) (hN : N ≠ 0) :
    mathRound ((n : ℚ) * 100 / (N : ℚ)) = (((200 * n + N) / (2 * N) : ℕ) : ℤ) := by
  have hN' : (N : ℚ) ≠ 0 := Nat.cast_ne_zero.mpr hN
  have hq : (n : ℚ) * 100 / (N : ℚ) + 1 / 2 = ((200 * n + N : ℕ) : ℚ) / ((2 * N : ℕ) : ℚ) := by
    push_cast
    field_simp
    ring
  rw [mathRound, hq, Rat.floor_natCast_div_natCast]
  exact (Int.natCast_div _ _).symm

/-- The number of `worker.end()` calls performed by `renderHTML`, as a function
of which chunks' `worker.render` calls resolve (`ok`). `renderHTML` maps an
async function over `chunk(renderQueue, 350)` and awaits `Promise.all`: every
chunk's function starts, each failing chunk runs its own
`catch (err) { worker.end(); throw err }`, and the trailing `worker.end()`
after the `await` runs only when every chunk resolved. Hence: 1 call when all
chunks succeed, otherwise one call per failing chunk. -/
def renderHTMLEndCalls {π : Type} (renderQueue : List π) (ok : List π → Bool) : ℕ :=
  let failing := ((chunk renderQueue 350).filter (fun c => !(ok c))).length
  if failing = 0 then 1 else failing

/-! ## The image-processing stage as a trace model -/

/-- The configuration fields `processImages` reads; every other field of the
build configuration is opaque to it. -/
structure ImagesOptions where
  removeUnused : Bool
deriving DecidableEq

structure Config where
  emptyOutputDir : Bool
  images : ImagesOptions
deriving DecidableEq

/-- Observable events of the image-processing stage, in execution order:
the `fs.readdir(config.imagesDir)` call, a `worker.process` dispatch of one
chunk, a redraw of the progress line with its percentage, the `worker.end()`
shutdown, and a `fs.remove` of one reconciled file. -/
inductive ImgEvent where
  | readDir : ImgEvent
  | dispatch : List ImageJob → ImgEvent
  | progressLine : ℤ → ImgEvent
  | workerEnd : ImgEvent
  | removeFile : String → ImgEvent
deriving DecidableEq

/-- Modelled from the spec: the Concurrency-Limited Mapper (the external
`p-map` dependency, whose source is not part of this repository) "invokes an
async operation on each item, running at most N concurrently, resolving when
all complete or rejecting on first failure", and "must stop scheduling further
chunks once one has failed — first-failure-wins". The model therefore runs the
mapper body over the chunks in submission order, stopping at the first
rejection. The body and the surrounding `try`/`catch` of `processImages` are
from the source: each iteration awaits `worker.process` on its chunk, then
redraws the progress line with `Math.round((++progress) * 100 / totalJobs)`;
on rejection the `catch` runs `worker.end()` once and rethrows; when the
mapper resolves, the success path runs `worker.end()` once. -/
def imgLoop {ε : Type} (workerOutcome : List ImageJob → Except ε Unit) (totalJobs : ℕ) :
    List (List ImageJob) → ℕ → List ImgEvent × Except ε Unit
  | [], _ => ([ImgEvent.workerEnd], Except.ok ())
  | c :: rest, progress =>
    match workerOutcome c with
    | Except.error e => ([ImgEvent.dispatch c, ImgEvent.workerEnd], Except.error e)
    | Except.ok _ =>
      let next := imgLoop workerOutcome totalJobs rest (progress + 1)
      (ImgEvent.dispatch c ::
          ImgEvent.progressLine (mathRound (((progress + 1 : ℕ) : ℚ) * 100 / (totalJobs : ℚ))) ::
          next.1,
        next.2)

/-- The mapper run of `processImages`: `chunks = chunk(images.queue, 25)` and
`totalJobs = chunks.length`, fed through `imgLoop` with the progress counter
starting at 0. -/
def imgRun {ε : Type} (images : List ImageJob)
    (workerOutcome : List ImageJob → Except ε Unit) : List ImgEvent × Except ε Unit :=
  imgLoop workerOutcome (chunk images 25).length (chunk images 25) 0

/-- The image-processing stage `processImages(images, config)`: chunk the queue
by 25; unless `config.emptyOutputDir`, read the pre-existing images directory
(`await fs.readdir(config.imagesDir)`, whose rejection propagates); write the
initial `0%` progress line; run the chunks through the mapper; on success,
reconcile by removing `removedImages`. Returns the stage's event trace and its
result. -/
def processImagesModel {ε : Type} (images : List ImageJob) (config : Config)
    (readDirOutcome : Except ε (List String))
    (workerOutcome : List ImageJob → Except ε Unit) :
    List ImgEvent × Except ε Unit :=
  if config.emptyOutputDir then
    let r := imgRun images workerOutcome
    match r.2 with
    | Except.error e => (ImgEvent.progressLine 0 :: r.1, Except.error e)
    | Except.ok _ =>
      (ImgEvent.progressLine 0 :: r.1 ++
          (removedImages config.images.removeUnused [] images).map ImgEvent.removeFile,
        Except.ok ())
  else
    match readDirOutcome with
    | Except.error e => ([ImgEvent.readDir], Except.error e)
    | Except.ok existingImages =>
      let r := imgRun images workerOutcome
      match r.2 with
      | Except.error e =>
        (ImgEvent.readDir :: ImgEvent.progressLine 0 :: r.1, Except.error e)
      | Except.ok _ =>
        (ImgEvent.readDir :: ImgEvent.progressLine 0 :: r.1 ++
            (removedImages config.images.removeUnused existingImages images).map
              ImgEvent.removeFile,
          Except.ok ())

/-- The chunks dispatched to the image worker, in dispatch order. -/
def dispatched : List ImgEvent → List (List ImageJob)
  | [] => []
  | ImgEvent.dispatch c :: rest => c :: dispatched rest
  | _ :: rest => dispatched rest

/-- The percentages drawn on the progress line, in order of emission. -/
def progressValues : List ImgEvent → List ℤ
  | [] => []
  | ImgEvent.progressLine q :: rest => q :: progressValues rest
  | _ :: rest => progressValues rest

/-- The number of `worker.end()` calls recorded in a trace. -/
def countEnd : List ImgEvent → ℕ
  | [] => 0
  | ImgEvent.workerEnd :: rest => countEnd rest + 1
  | _ :: rest => countEnd rest

theorem imgLoop_events {ε : Type} (w : List ImageJob → Except ε Unit) (t : ℕ) :
    ∀ (cs : List (List ImageJob)) (p : ℕ), ∀ ev ∈ (imgLoop w t cs p).1,
      ev = ImgEvent.workerEnd ∨ (∃ c, ev = ImgEvent.dispatch c) ∨
        ∃ q, ev = ImgEvent.progressLine q := by
  intro cs
  induction cs with
  | nil => intro p ev hev; simp [imgLoop] at hev; simp [hev]
  | cons c rest ih =>
    intro p ev hev
    rcases hw : w c with e | u
    · simp [imgLoop, hw] at hev
      rcases hev with h | h <;> simp [h]
    · simp only [imgLoop, hw] at hev
      rcases List.mem_cons.mp hev with h | hev2
      · simp [h]
      · rcases List.mem_cons.mp hev2 with h | h3
        · simp [h]
        · exact ih (p + 1) ev h3

theorem imgLoop_countEnd {ε : Type} (w : List ImageJob → Except ε Unit) (t : ℕ) :
    ∀ (cs : List (List ImageJob)) (p : ℕ), countEnd (imgLoop w t cs p).1 = 1 := by
  intro cs
  induction cs with
  | nil => intro p; simp [imgLoop, countEnd]
  | cons c rest ih =>
    intro p
    rcases hw : w c with e | u
    · simp [imgLoop, hw, countEnd]
    · simp only [imgLoop, hw]
      show countEnd (ImgEvent.dispatch c :: ImgEvent.progressLine _ :: _) = 1
      simp [countEnd, ih (p + 1)]

theorem imgLoop_success {ε : Type} (w : List ImageJob → Except ε Unit) (t : ℕ) :
    ∀ (cs : List (List ImageJob)) (p : ℕ), (∀ c ∈ cs, w c = Except.ok ()) →
      (imgLoop w t cs p).2 = Except.ok () ∧
      dispatched (imgLoop w t cs p).1 = cs ∧
      progressValues (imgLoop w t cs p).1 =
        (List.range cs.length).map
          (fun i => mathRound (((p + 1 + i : ℕ) : ℚ) * 100 / (t : ℚ))) := by
  intro cs
  induction cs with
  | nil => intro p _; simp [imgLoop, dispatched, progressValues]
  | cons c rest ih =>
    intro p hall
    have hc : w c = Except.ok () := hall c (List.mem_cons_self c rest)
    obtain ⟨ih1, ih2, ih3⟩ := ih (p + 1) (fun d hd => hall d (List.mem_cons_of_mem c hd))
    refine ⟨?_, ?_, ?_⟩
    · simp [imgLoop, hc, ih1]
    · simp only [imgLoop, hc]
      show dispatched (ImgEvent.dispatch c :: ImgEvent.progressLine _ :: _) = _
      simp [dispatched, ih2]
    · simp only [imgLoop, hc]
      show progressValues (ImgEvent.dispatch c :: ImgEvent.progressLine _ :: _) = _
      simp only [progressValues, ih3, List.length_cons]
      rw [List.range_succ_eq_map]
      simp only [List.map_cons, List.map_map, Nat.add_zero]
      refine List.cons_eq_cons.mpr ⟨rfl, ?_⟩
      apply List.map_congr_left
      intro i _
      simp only [Function.comp_apply, Nat.succ_eq_add_one]
      have harith : p + 1 + 1 + i = p + 1 + (i + 1) := by omega
      rw [harith]

theorem imgLoop_failure {ε : Type} (w : List ImageJob → Except ε Unit) (t : ℕ) (e : ε) :
    ∀ (cs : List (List ImageJob)) (k : ℕ) (p : ℕ) (hk : k < cs.length),
      (∀ j (hj : j < k), w (cs.get ⟨j, lt_trans hj hk⟩) = Except.ok ()) →
      w (cs.get ⟨k, hk⟩) = Except.error e →
      (imgLoop w t cs p).2 = Except.error e ∧
      dispatched (imgLoop w t cs p).1 = cs.take (k + 1) ∧
      (imgLoop w t cs p).1.getLast? = some ImgEvent.workerEnd := by
  intro cs
  induction cs with
  | nil => intro k p hk; exact absurd hk (by simp)
  | cons c rest ih =>
    intro k p hk hok herr
    rcases k with _ | k
    · have hc : w c = Except.error e := herr
      simp [imgLoop, hc, dispatched]
    · have hc : w c = Except.ok () := hok 0 (by omega)
      have hk' : k < rest.length := by simpa using hk
      have hok' : ∀ j (hj : j < k), w (rest.get ⟨j, lt_trans hj hk'⟩) = Except.ok () := by
        intro j hj
        exact hok (j + 1) (by omega)
      have herr' : w (rest.get ⟨k, hk'⟩) = Except.error e := herr
      obtain ⟨h1, h2, h3⟩ := ih k (p + 1) hk' hok' herr'
      refine ⟨?_, ?_, ?_⟩
      · simp [imgLoop, hc, h1]
      · simp only [imgLoop, hc]
        show dispatched (ImgEvent.dispatch c :: ImgEvent.progressLine _ :: _) = _
        simp [dispatched, h2]
      · simp only [imgLoop, hc]
        show (ImgEvent.dispatch c :: ImgEvent.progressLine _ :: _).getLast? = _
        rcases hne : (imgLoop w t rest (p + 1)).1 with _ | ⟨x, xs⟩
        · rw [hne] at h3; exact absurd h3 (by simp)
        · rw [hne] at h3
          rw [List.getLast?_cons_cons, List.getLast?_cons_cons]
          exact h3

theorem removedImages_nil_existing (removeUnused : Bool) (queue : List ImageJob) :
    removedImages removeUnused [] queue = [] := by
  simp [removedImages]

theorem dispatched_removeFiles (l : List String) :
    dispatched (l.map ImgEvent.removeFile) = [] := by
  induction l with
  | nil => simp [dispatched]
  | cons x xs ih => simp [dispatched, ih]

theorem progressValues_removeFiles (l : List String) :
    progressValues (l.map ImgEvent.removeFile) = [] := by
  induction l with
  | nil => simp [progressValues]
  | cons x xs ih => simp [progressValues, ih]

theorem countEnd_removeFiles (l : List String) :
    countEnd (l.map ImgEvent.removeFile) = 0 := by
  induction l with
  | nil => simp [countEnd]
  | cons x xs ih => simp [countEnd, ih]

theorem countEnd_append (l₁ l₂ : List ImgEvent) :
    countEnd (l₁ ++ l₂) = countEnd l₁ + countEnd l₂ := by
  induction l₁ with
  | nil => simp [countEnd]
  | cons ev rest ih =>
    cases ev
    case workerEnd =>
      show countEnd (rest ++ l₂) + 1 = countEnd rest + 1 + countEnd l₂
      rw [ih]
      omega
    all_goals simp [countEnd, ih]

theorem dispatched_append (l₁ l₂ : List ImgEvent) :
    dispatched (l₁ ++ l₂) = dispatched l₁ ++ dispatched l₂ := by
  induction l₁ with
  | nil => simp [dispatched]
  | cons ev rest ih =>
    cases ev <;> simp [dispatched, ih]

theorem progressValues_append (l₁ l₂ : List ImgEvent) :
    progressValues (l₁ ++ l₂) = progressValues l₁ ++ progressValues l₂ := by
  induction l₁ with
  | nil => simp [progressValues]
  | cons ev rest ih =>
    cases ev <;> simp [progressValues, ih]

theorem processImagesModel_trace_empty {ε : Type} (images : List ImageJob) (config : Config)
    (readDirOutcome : Except ε (List String)) (workerOutcome : List ImageJob → Except ε Unit)
    (hempty : config.emptyOutputDir = true) :
    processImagesModel images config readDirOutcome workerOutcome =
      (ImgEvent.progressLine 0 :: (imgRun images workerOutcome).1,
        (imgRun images workerOutcome).2) := by
  unfold processImagesModel
  rw [hempty]
  simp only [if_true, removedImages_nil_existing, List.map_nil]
  rcases hr : (imgRun images workerOutcome).2 with e | u
  · simp [hr]
  · simp [hr]

theorem processImagesModel_trace_read_fail {ε : Type} (images : List ImageJob) (config : Config)
    (existing : List String) (workerOutcome : List ImageJob → Except ε Unit) (e : ε)
    (hempty : config.emptyOutputDir = false)
    (hr : (imgRun images workerOutcome).2 = Except.error e) :
    processImagesModel images config (Except.ok existing) workerOutcome =
      (ImgEvent.readDir :: ImgEvent.progressLine 0 :: (imgRun images workerOutcome).1,
        Except.error e) := by
  unfold processImagesModel
  rw [hempty]
  simp [hr]

theorem processImagesModel_trace_read_ok {ε : Type} (images : List ImageJob) (config : Config)
    (existing : List String) (workerOutcome : List ImageJob → Except ε Unit)
    (hempty : config.emptyOutputDir = false)
    (hr : (imgRun images workerOutcome).2 = Except.ok ()) :
    processImagesModel images config (Except.ok existing) workerOutcome =
      (ImgEvent.readDir :: ImgEvent.progressLine 0 :: (imgRun images workerOutcome).1 ++
          (removedImages config.images.removeUnused existing images).map ImgEvent.removeFile,
        Except.ok ()) := by
  unfold processImagesModel
  rw [hempty]
  simp [hr]

/-- C4: when `emptyOutputDir` is true the pre-build read of the images
directory is skipped (no `readdir` occurs — the existing-image set is the empty
list built into the model's `emptyOutputDir` branch) and the reconciliation
deletes no file, for every queue, every worker outcome and either value of
`removeUnused`. -/
theorem empty_output_dir_skips_reconciliation {ε : Type} (images : List ImageJob)
    (config : Config) (readDirOutcome : Except ε (List String))
    (workerOutcome : List ImageJob → Except ε Unit)
    (hempty : config.emptyOutputDir = true) :
    ImgEvent.readDir ∉ (processImagesModel images config readDirOutcome workerOutcome).1 ∧
    ∀ f, ImgEvent.removeFile f ∉
        (processImagesModel images config readDirOutcome workerOutcome).1 := by
  rw [processImagesModel_trace_empty images config readDirOutcome workerOutcome hempty]
  constructor
  · intro hmem
    rcases List.mem_cons.mp hmem with h | h
    · exact ImgEvent.noConfusion h
    · rcases imgLoop_events workerOutcome (chunk images 25).length (chunk images 25) 0
          ImgEvent.readDir h with h1 | ⟨c, h1⟩ | ⟨q, h1⟩ <;> exact ImgEvent.noConfusion h1
  · intro f hmem
    rcases List.mem_cons.mp hmem with h | h
    · exact ImgEvent.noConfusion h
    · rcases imgLoop_events workerOutcome (chunk images 25).length (chunk images 25) 0
          (ImgEvent.removeFile f) h with h1 | ⟨c, h1⟩ | ⟨q, h1⟩ <;> exact ImgEvent.noConfusion h1

/-- C4 witness: a one-image queue with `emptyOutputDir` set: the stage performs
no directory read and removes no file. -/
theorem empty_output_dir_skips_reconciliation_witness :
    ImgEvent.readDir ∉
      (processImagesModel [⟨"assets/static/x.png"⟩] ⟨true, ⟨true⟩⟩
        (Except.ok ["stale.png"] : Except ℕ (List String))
        (fun _ => Except.ok ())).1 ∧
    ImgEvent.removeFile "stale.png" ∉
      (processImagesModel [⟨"assets/static/x.png"⟩] ⟨true, ⟨true⟩⟩
        (Except.ok ["stale.png"] : Except ℕ (List String))
        (fun _ => Except.ok ())).1 := by
  have h := empty_output_dir_skips_reconciliation [⟨"assets/static/x.png"⟩] ⟨true, ⟨true⟩⟩
    (Except.ok ["stale.png"] : Except ℕ (List String)) (fun _ => Except.ok ()) rfl
  exact ⟨h.1, h.2 "stale.png"⟩

theorem removedImages_empty_queue (existing : List String) (hne : existing ≠ []) :
    removedImages true existing [] = existing := by
  have hlen : existing.length != 0 := by simpa using hne
  simp [removedImages, extraImages, newImages, hlen]

/-- C9: `emptyOutputDir` false, `removeUnused` true, non-empty pre-existing
directory, empty image queue: the produced-basename set is empty, so the
reconciliation deletes every pre-existing file. -/
theorem empty_queue_deletes_all_existing {ε : Type} (config : Config) (existing : List String)
    (workerOutcome : List ImageJob → Except ε Unit)
    (hempty : config.emptyOutputDir = false) (hru : config.images.removeUnused = true)
    (hne : existing ≠ []) :
    removedImages config.images.removeUnused existing [] = existing ∧
    processImagesModel [] config (Except.ok existing) workerOutcome =
      ([ImgEvent.readDir, ImgEvent.progressLine 0, ImgEvent.workerEnd] ++
          existing.map ImgEvent.removeFile,
        Except.ok ()) := by
  have hrun : imgRun ([] : List ImageJob) workerOutcome = ([ImgEvent.workerEnd], Except.ok ()) := by
    simp [imgRun, chunk_nil, imgLoop]
  have hrem : removedImages config.images.removeUnused existing [] = existing := by
    rw [hru]
    exact removedImages_empty_queue existing hne
  refine ⟨hrem, ?_⟩
  rw [processImagesModel_trace_read_ok ([] : List ImageJob) config existing workerOutcome hempty
    (by rw [hrun])]
  rw [hrem, hrun]

/-- C9 witness: two pre-existing files and an empty queue: both are removed. -/
theorem empty_queue_deletes_all_existing_witness :
    processImagesModel [] ⟨false, ⟨true⟩⟩ (Except.ok ["a.png", "b.png"])
        (fun _ => (Except.ok () : Except ℕ Unit)) =
      ([ImgEvent.readDir, ImgEvent.progressLine 0, ImgEvent.workerEnd,
          ImgEvent.removeFile "a.png", ImgEvent.removeFile "b.png"],
        Except.ok ()) := by
  have h := empty_queue_deletes_all_existing ⟨false, ⟨true⟩⟩ ["a.png", "b.png"]
    (fun _ => (Except.ok () : Except ℕ Unit)) rfl rfl (by decide)
  rw [h.2]
  simp

/-- C10: whenever `emptyOutputDir` is false the stage reads the images
directory first — before any chunk dispatch, and regardless of `removeUnused`
(the read is unconditional in the model); a failing read aborts the stage with
that same error before anything is dispatched (the trace is just the read). -/
theorem readdir_precedes_dispatch {ε : Type} (images : List ImageJob) (config : Config)
    (readDirOutcome : Except ε (List String)) (workerOutcome : List ImageJob → Except ε Unit)
    (hempty : config.emptyOutputDir = false) :
    (processImagesModel images config readDirOutcome workerOutcome).1.head? =
        some ImgEvent.readDir ∧
    (∀ e : ε, readDirOutcome = Except.error e →
      processImagesModel images config readDirOutcome workerOutcome =
        ([ImgEvent.readDir], Except.error e)) := by
  constructor
  · rcases readDirOutcome with e | existing
    · unfold processImagesModel
      rw [hempty]
      simp
    · rcases hr : (imgRun images workerOutcome).2 with e | u
      · rw [processImagesModel_trace_read_fail images config existing workerOutcome e hempty hr]
        simp
      · rw [processImagesModel_trace_read_ok images config existing workerOutcome hempty
          (by rw [hr])]
        simp
  · intro e he
    subst he
    unfold processImagesModel
    rw [hempty]
    simp

/-- C10 witness: a failing directory read (error 7) aborts the stage before any
dispatch, with the read as the only event. -/
theorem readdir_precedes_dispatch_witness :
    processImagesModel [⟨"assets/static/x.png"⟩] ⟨false, ⟨false⟩⟩
        (Except.error 7 : Except ℕ (List String)) (fun _ => Except.ok ()) =
      ([ImgEvent.readDir], Except.error 7) :=
  (readdir_precedes_dispatch [⟨"assets/static/x.png"⟩] ⟨false, ⟨false⟩⟩
    (Except.error 7) (fun _ => Except.ok ()) rfl).2 7 rfl

/-- C6: first-failure-wins in the image stage: when the worker rejects chunk
`k` with error `e` (all earlier chunks resolving), the stage dispatches exactly
the chunks up to and including `k` — no chunk is scheduled after the failure —
the worker session is shut down as the final event before the error
propagates, and the stage rejects with that same error. -/
theorem image_failure_first_wins {ε : Type} (images : List ImageJob) (config : Config)
    (existing : List String) (workerOutcome : List ImageJob → Except ε Unit) (e : ε) (k : ℕ)
    (hempty : config.emptyOutputDir = false)
    (hk : k < (chunk images 25).length)
    (hok : ∀ j (hj : j < k),
        workerOutcome ((chunk images 25).get ⟨j, lt_trans hj hk⟩) = Except.ok ())
    (herr : workerOutcome ((chunk images 25).get ⟨k, hk⟩) = Except.error e) :
    (processImagesModel images config (Except.ok existing) workerOutcome).2 = Except.error e ∧
    dispatched (processImagesModel images config (Except.ok existing) workerOutcome).1 =
      (chunk images 25).take (k + 1) ∧
    (processImagesModel images config (Except.ok existing) workerOutcome).1.getLast? =
      some ImgEvent.workerEnd := by
  obtain ⟨h1, h2, h3⟩ := imgLoop_failure workerOutcome (chunk images 25).length e
    (chunk images 25) k 0 hk hok herr
  have hr : (imgRun images workerOutcome).2 = Except.error e := h1
  rw [processImagesModel_trace_read_fail images config existing workerOutcome e hempty hr]
  refine ⟨rfl, ?_, ?_⟩
  · show dispatched
        (ImgEvent.readDir :: ImgEvent.progressLine 0 :: (imgRun images workerOutcome).1) = _
    show dispatched (imgRun images workerOutcome).1 = _
    exact h2
  · show (ImgEvent.readDir :: ImgEvent.progressLine 0 ::
        (imgRun images workerOutcome).1).getLast? = _
    have h3' : (imgRun images workerOutcome).1.getLast? = some ImgEvent.workerEnd := h3
    rcases hne : (imgRun images workerOutcome).1 with _ | ⟨x, xs⟩
    · rw [hne] at h3'
      exact absurd h3' (by simp)
    · rw [hne] at h3'
      rw [List.getLast?_cons_cons, List.getLast?_cons_cons]
      exact h3'

/-- C6 witness: 26 queued images (two chunks), the worker failing every chunk:
the stage dispatches only the first chunk, ends the worker last, and rejects
with the worker's error. -/
theorem image_failure_first_wins_witness :
    (processImagesModel (List.replicate 26 ⟨"assets/static/x.png"⟩) ⟨false, ⟨false⟩⟩
        (Except.ok [] : Except ℕ (List String)) (fun _ => Except.error 3)).2 =
      Except.error 3 ∧
    dispatched (processImagesModel (List.replicate 26 ⟨"assets/static/x.png"⟩) ⟨false, ⟨false⟩⟩
        (Except.ok [] : Except ℕ (List String)) (fun _ => Except.error 3)).1 =
      (chunk (List.replicate 26 (⟨"assets/static/x.png"⟩ : ImageJob)) 25).take 1 := by
  have h := image_failure_first_wins (List.replicate 26 ⟨"assets/static/x.png"⟩) ⟨false, ⟨false⟩⟩
    [] (fun _ => (Except.error 3 : Except ℕ Unit)) 3 0 rfl (by decide)
    (fun j hj => absurd hj (by omega)) rfl
  exact ⟨h.1, h.2.1⟩

/-- C8: chunk-granularity progress accounting: in a run of the image stage in
which every chunk succeeds, the percentage drawn after the n-th chunk
completion (1 ≤ n ≤ N, N the number of chunks) is `Math.round(n * 100 / N)`;
the counter advances by one per completed chunk, not per image. -/
theorem progress_chunk_granularity {ε : Type} (images : List ImageJob) (config : Config)
    (existing : List String) (workerOutcome : List ImageJob → Except ε Unit)
    (hempty : config.emptyOutputDir = false)
    (hall : ∀ c ∈ chunk images 25, workerOutcome c = Except.ok ())
    (n : ℕ) (hn1 : 1 ≤ n) (hn2 : n ≤ (chunk images 25).length) :
    (progressValues
        (processImagesModel images config (Except.ok existing) workerOutcome).1)[n]? =
      some (mathRound ((n : ℚ) * 100 / ((chunk images 25).length : ℚ))) := by
  obtain ⟨h1, h2, h3⟩ := imgLoop_success workerOutcome (chunk images 25).length
    (chunk images 25) 0 hall
  rw [processImagesModel_trace_read_ok images config existing workerOutcome hempty h1]
  show (progressValues (ImgEvent.readDir :: ImgEvent.progressLine 0 ::
      ((imgRun images workerOutcome).1 ++
        (removedImages config.images.removeUnused existing images).map ImgEvent.removeFile)))[n]? = _
  show (0 :: progressValues ((imgRun images workerOutcome).1 ++
      (removedImages config.images.removeUnused existing images).map ImgEvent.removeFile))[n]? = _
  rw [progressValues_append, progressValues_removeFiles, List.append_nil]
  have h3' : progressValues (imgRun images workerOutcome).1 =
      (List.range (chunk images 25).length).map
        (fun i => mathRound (((0 + 1 + i : ℕ) : ℚ) * 100 / ((chunk images 25).length : ℚ))) := h3
  rw [h3']
  rcases n with _ | m
  · omega
  · rw [List.getElem?_cons_succ, List.getElem?_map]
    have hm : m < (chunk images 25).length := by omega
    rw [List.getElem?_range hm]
    show some (mathRound (((0 + 1 + m : ℕ) : ℚ) * 100 / ((chunk images 25).length : ℚ))) = _
    have harith : 0 + 1 + m = m + 1 := by omega
    rw [harith]

/-- C8 witness: a single-image queue (one chunk): after the first and only
chunk completes, the progress line shows 100 percent. -/
theorem progress_chunk_granularity_witness :
    (progressValues (processImagesModel [⟨"assets/static/i.png"⟩] ⟨false, ⟨false⟩⟩
        (Except.ok [] : Except ℕ (List String)) (fun _ => Except.ok ())).1)[1]? =
      some 100 := by
  have h := progress_chunk_granularity [⟨"assets/static/i.png"⟩] ⟨false, ⟨false⟩⟩ []
    (fun _ => (Except.ok () : Except ℕ Unit)) rfl (fun c _ => rfl) 1 (by omega) (by decide)
  rw [h]
  have hlen : (chunk [(⟨"assets/static/i.png"⟩ : ImageJob)] 25).length = 1 := by decide
  rw [hlen]
  rw [mathRound_progress 1 1 (by omega)]
  norm_num

/-- C5 counterexample: a 351-page render queue (two chunks), both chunk
dispatches failing: each failing chunk's `catch` runs `worker.end()`, so the
HTML stage calls it twice — not exactly once. -/
theorem worker_end_once_counterexample :
    renderHTMLEndCalls (List.range 351) (fun _ => false) ≠ 1 := by decide

/-- C5 (amended): the image stage shuts its worker down exactly once on every
path that reaches dispatch (whenever the pre-existing-images read is skipped
or succeeds), on success and failure alike; the HTML stage shuts its worker
down exactly once iff at most one chunk dispatch fails — in general, once on
full success and once per failing chunk otherwise. -/
theorem worker_end_amended :
    (∀ (ε : Type) (images : List ImageJob) (config : Config)
        (readDirOutcome : Except ε (List String))
        (workerOutcome : List ImageJob → Except ε Unit),
        (config.emptyOutputDir = true ∨ ∃ l, readDirOutcome = Except.ok l) →
        countEnd (processImagesModel images config readDirOutcome workerOutcome).1 = 1) ∧
    (∀ (π : Type) (renderQueue : List π) (ok : List π → Bool),
        (renderHTMLEndCalls renderQueue ok = 1 ↔
          ((chunk renderQueue 350).filter (fun c => !(ok c))).length ≤ 1)) := by
  constructor
  · intro ε images config readDirOutcome workerOutcome hcond
    have hend := imgLoop_countEnd workerOutcome (chunk images 25).length (chunk images 25) 0
    have hend' : countEnd (imgRun images workerOutcome).1 = 1 := hend
    rcases hcond with hempty | ⟨l, hl⟩
    · rw [processImagesModel_trace_empty images config readDirOutcome workerOutcome hempty]
      show countEnd (ImgEvent.progressLine 0 :: (imgRun images workerOutcome).1) = 1
      show countEnd (imgRun images workerOutcome).1 = 1
      exact hend'
    · subst hl
      by_cases hempty : config.emptyOutputDir = true
      · rw [processImagesModel_trace_empty images config (Except.ok l) workerOutcome hempty]
        show countEnd (ImgEvent.progressLine 0 :: (imgRun images workerOutcome).1) = 1
        show countEnd (imgRun images workerOutcome).1 = 1
        exact hend'
      · have hempty' : config.emptyOutputDir = false := by
          simpa using hempty
        rcases hr : (imgRun images workerOutcome).2 with e | u
        · rw [processImagesModel_trace_read_fail images config l workerOutcome e hempty' hr]
          show countEnd (ImgEvent.readDir :: ImgEvent.progressLine 0 ::
              (imgRun images workerOutcome).1) = 1
          show countEnd (imgRun images workerOutcome).1 = 1
          exact hend'
        · cases u
          rw [processImagesModel_trace_read_ok images config l workerOutcome hempty' hr]
          show countEnd (ImgEvent.readDir :: ImgEvent.progressLine 0 ::
              ((imgRun images workerOutcome).1 ++
                (removedImages config.images.removeUnused l images).map ImgEvent.removeFile)) = 1
          show countEnd ((imgRun images workerOutcome).1 ++
              (removedImages config.images.removeUnused l images).map ImgEvent.removeFile) = 1
          rw [countEnd_append, countEnd_removeFiles, hend']
  · intro π renderQueue ok
    rcases Nat.eq_zero_or_pos ((chunk renderQueue 350).filter (fun c => !(ok c))).length
      with h0 | hpos
    · show (if ((chunk renderQueue 350).filter (fun c => !(ok c))).length = 0 then 1
          else ((chunk renderQueue 350).filter (fun c => !(ok c))).length) = 1 ↔ _
      simp [h0]
    · have hne : ((chunk renderQueue 350).filter (fun c => !(ok c))).length ≠ 0 := by omega
      show (if ((chunk renderQueue 350).filter (fun c => !(ok c))).length = 0 then 1
          else ((chunk renderQueue 350).filter (fun c => !(ok c))).length) = 1 ↔ _
      rw [if_neg hne]
      omega

/-- C5 witness: concrete success runs: the image stage with a one-chunk queue
and the HTML stage with an empty queue each shut their worker down exactly
once. -/
theorem worker_end_amended_witness :
    countEnd (processImagesModel [⟨"assets/static/x.png"⟩] ⟨false, ⟨false⟩⟩
        (Except.ok [] : Except ℕ (List String)) (fun _ => Except.ok ())).1 = 1 ∧
    renderHTMLEndCalls ([] : List ℕ) (fun _ => true) = 1 := by
  constructor
  · exact worker_end_amended.1 ℕ [⟨"assets/static/x.png"⟩] ⟨false, ⟨false⟩⟩
      (Except.ok []) (fun _ => Except.ok ()) (Or.inr ⟨[], rfl⟩)
  · exact (worker_end_amended.2 ℕ [] (fun _ => true)).mpr (by decide)

/-! ## The top-level pipeline (`module.exports`) -/

/-- The awaited steps of the top-level build function, in source order.
`emptyOutput` runs only when `config.emptyOutputDir` is set; `copyStatic` only
when the static directory exists. (`createRenderQueue` and the redirects hook
are synchronous and not modelled as separate stages.) -/
inductive Stage where
  | beforeBuildHook : Stage
  | emptyOutput : Stage
  | compile : Stage
  | executeQueries : Stage
  | renderHTML : Stage
  | processFiles : Stage
  | processImages : Stage
  | copyStatic : Stage
  | afterBuildHook : Stage
  | removeManifests : Stage
deriving DecidableEq

/-- The stage sequence of one build run, from the body of `module.exports`:
each listed step is awaited before the next begins. -/
def buildStages (emptyOutputDir staticDirExists : Bool) : List Stage :=
  [Stage.beforeBuildHook] ++
  (if emptyOutputDir then [Stage.emptyOutput] else []) ++
  [Stage.compile, Stage.executeQueries, Stage.renderHTML, Stage.processFiles,
    Stage.processImages] ++
  (if staticDirExists then [Stage.copyStatic] else []) ++
  [Stage.afterBuildHook, Stage.removeManifests]

/-- Sequential `await` semantics of the orchestrator body: run the stages in
order; the first rejection aborts the run and later stages never start.
Returns the stages that ran, in execution order, and the run's result. -/
def runStages {ε : Type} (outcome : Stage → Except ε Unit) :
    List Stage → List Stage × Except ε Unit
  | [] => ([], Except.ok ())
  | s :: rest =>
    match outcome s with
    | Except.error e => ([s], Except.error e)
    | Except.ok _ =>
      let r := runStages outcome rest
      (s :: r.1, r.2)

theorem runStages_front {ε : Type} (outcome : Stage → Except ε Unit) :
    ∀ l : List Stage, ∃ rest, l = (runStages outcome l).1 ++ rest := by
  intro l
  induction l with
  | nil => exact ⟨[], rfl⟩
  | cons s tail ih =>
    rcases ho : outcome s with e | u
    · refine ⟨tail, ?_⟩
      simp [runStages, ho]
    · obtain ⟨r, hr⟩ := ih
      refine ⟨r, ?_⟩
      simp only [runStages, ho]
      show s :: tail = (s :: (runStages outcome tail).1) ++ r
      rw [List.cons_append, ← hr]

theorem runStages_ok {ε : Type} (outcome : Stage → Except ε Unit) :
    ∀ l : List Stage, (runStages outcome l).2 = Except.ok () →
      (runStages outcome l).1 = l := by
  intro l
  induction l with
  | nil => intro _; rfl
  | cons s tail ih =>
    intro hres
    rcases ho : outcome s with e | u
    · rw [show (runStages outcome (s :: tail)).2 =
          Except.error e from by simp [runStages, ho]] at hres
      exact Except.noConfusion hres
    · have h2 : (runStages outcome (s :: tail)).2 = (runStages outcome tail).2 := by
        simp [runStages, ho]
      rw [h2] at hres
      have h1 : (runStages outcome (s :: tail)).1 = s :: (runStages outcome tail).1 := by
        simp [runStages, ho]
      rw [h1, ih hres]

theorem runStages_error {ε : Type} (outcome : Stage → Except ε Unit) :
    ∀ (l : List Stage) (e : ε), (runStages outcome l).2 = Except.error e →
      ∃ pre s, (runStages outcome l).1 = pre ++ [s] ∧ outcome s = Except.error e ∧
        (∀ t ∈ pre, outcome t = Except.ok ()) ∧
        l = pre ++ s :: l.drop (pre.length + 1) := by
  intro l
  induction l with
  | nil => intro e hres; exact Except.noConfusion hres
  | cons s tail ih =>
    intro e hres
    rcases ho : outcome s with e' | u
    · have h2 : (runStages outcome (s :: tail)).2 = Except.error e' := by
        simp [runStages, ho]
      rw [h2] at hres
      have he : e' = e := by
        injection hres
      subst he
      refine ⟨[], s, ?_, ho, by simp, by simp⟩
      simp [runStages, ho]
    · have h2 : (runStages outcome (s :: tail)).2 = (runStages outcome tail).2 := by
        simp [runStages, ho]
      rw [h2] at hres
      obtain ⟨pre, s', htrace, herr, hok, hsplit⟩ := ih e hres
      refine ⟨s :: pre, s', ?_, herr, ?_, ?_⟩
      · have h1 : (runStages outcome (s :: tail)).1 = s :: (runStages outcome tail).1 := by
          simp [runStages, ho]
        rw [h1, htrace]
        rfl
      · intro t ht
        rcases List.mem_cons.mp ht with h | h
        · rw [h]; exact ho
        · exact hok t h
      · show s :: tail = (s :: pre) ++ s' :: (s :: tail).drop (pre.length + 2)
        rw [List.cons_append]
        rw [List.drop_succ_cons]
        exact congrArg (s :: ·) hsplit

theorem buildStages_nodup (emptyOutputDir staticDirExists : Bool) :
    (buildStages emptyOutputDir staticDirExists).Nodup := by
  cases emptyOutputDir <;> cases staticDirExists <;> decide

/-- C7: barrier semantics of the pipeline (`module.exports`): the executed
stages always form a prefix of the configured stage list, so a stage starts
only after every earlier stage resolved and in the listed order — queries
before HTML rendering, rendering before file copying, copying before image
processing, images before the static-directory copy, that before the
afterBuild hook, that before manifest removal; on success every stage runs
(none skipped); and the first failing stage terminates the run: everything
before it ran and succeeded, it ran last, and no later stage ran. -/
theorem pipeline_barrier {ε : Type} (emptyOutputDir staticDirExists : Bool)
    (outcome : Stage → Except ε Unit) :
    (∃ rest, buildStages emptyOutputDir staticDirExists =
        (runStages outcome (buildStages emptyOutputDir staticDirExists)).1 ++ rest) ∧
    ((runStages outcome (buildStages emptyOutputDir staticDirExists)).2 = Except.ok () →
      (runStages outcome (buildStages emptyOutputDir staticDirExists)).1 =
        buildStages emptyOutputDir staticDirExists) ∧
    (∀ e, (runStages outcome (buildStages emptyOutputDir staticDirExists)).2 = Except.error e →
      ∃ pre s,
        (runStages outcome (buildStages emptyOutputDir staticDirExists)).1 = pre ++ [s] ∧
        outcome s = Except.error e ∧ (∀ t ∈ pre, outcome t = Except.ok ()) ∧
        ∀ t ∈ (buildStages emptyOutputDir staticDirExists).drop (pre.length + 1),
          t ∉ (runStages outcome (buildStages emptyOutputDir staticDirExists)).1) ∧
    ((buildStages emptyOutputDir staticDirExists).indexOf Stage.executeQueries <
        (buildStages emptyOutputDir staticDirExists).indexOf Stage.renderHTML ∧
      (buildStages emptyOutputDir staticDirExists).indexOf Stage.renderHTML <
        (buildStages emptyOutputDir staticDirExists).indexOf Stage.processFiles ∧
      (buildStages emptyOutputDir staticDirExists).indexOf Stage.processFiles <
        (buildStages emptyOutputDir staticDirExists).indexOf Stage.processImages ∧
      (staticDirExists = true →
        (buildStages emptyOutputDir staticDirExists).indexOf Stage.processImages <
          (buildStages emptyOutputDir staticDirExists).indexOf Stage.copyStatic ∧
        (buildStages emptyOutputDir staticDirExists).indexOf Stage.copyStatic <
          (buildStages emptyOutputDir staticDirExists).indexOf Stage.afterBuildHook) ∧
      (buildStages emptyOutputDir staticDirExists).indexOf Stage.processImages <
        (buildStages emptyOutputDir staticDirExists).indexOf Stage.afterBuildHook ∧
      (buildStages emptyOutputDir staticDirExists).indexOf Stage.afterBuildHook <
        (buildStages emptyOutputDir staticDirExists).indexOf Stage.removeManifests) := by
  refine ⟨runStages_front outcome _, runStages_ok outcome _, ?_, ?_⟩
  · intro e hres
    obtain ⟨pre, s, htrace, herr, hok, hsplit⟩ :=
      runStages_error outcome (buildStages emptyOutputDir staticDirExists) e hres
    refine ⟨pre, s, htrace, herr, hok, ?_⟩
    intro t ht hmem
    have hnodup := buildStages_nodup emptyOutputDir staticDirExists
    rw [hsplit] at hnodup
    rw [List.nodup_append] at hnodup
    obtain ⟨-, hnodup2, hdisj⟩ := hnodup
    have hd : t ∈ (buildStages emptyOutputDir staticDirExists).drop (pre.length + 1) := ht
    rw [htrace] at hmem
    rcases List.mem_append.mp hmem with hp | hs
    · exact hdisj hp (List.mem_cons_of_mem s hd)
    · have hts : t = s := by simpa using hs
      subst hts
      exact (List.nodup_cons.mp hnodup2).1 hd
  · cases emptyOutputDir <;> cases staticDirExists <;> decide

/-- C7 witness: with every stage resolving, the full configured stage list
executes, in order. -/
theorem pipeline_barrier_witness :
    (runStages (fun _ => (Except.ok () : Except ℕ Unit)) (buildStages true true)).1 =
      buildStages true true :=
  (pipeline_barrier true true (fun _ => Except.ok ())).2.1 rfl

end Gridsome
